import Mathlib

/-!
# UDP relay with NAT-style session tracking (`manager/udp.go`)

A shallow embedding of the relay: the NAT table (`natmap`), the relay task
(`timedCopy`) and the listener loop of `udpRemote`, followed by the
properties established about them.

Conventions of the embedding.

* A byte slice over a freshly made buffer is a `List Byte` whose length is the
  capacity of the buffer.  A slice expression or a `copy` whose bounds are out
  of range is a run-time panic in Go; it is `none` here.
* A `net.PacketConn` is an interface value: `none` is the nil interface and
  `some s` is the open socket with identity `s`.
* Goroutines are interleaved: every atomic piece of a goroutine is one event
  and a run is a list of events folded over the state.
* The address codec (`socks.SplitAddr`, `socks.ParseAddr`, `Addr.String`) and
  the resolver (`net.ResolveUDPAddr`) are external and are parameters.
-/

namespace Manager

abbrev Byte := UInt8

/-- Identity of an open packet socket. -/
abbrev Sock := Nat

/-- A value of interface type `net.PacketConn`; `none` is nil. -/
abbrev PacketConn := Option Sock

/-- A resolved `*net.UDPAddr`. -/
abbrev UDPAddr := String

/-- An `error` value. -/
abbrev GoError := String

/-- The constants `remoteServer`, `relayClient`, `socksClient` of type `mode`. -/
inductive mode
  | remoteServer
  | relayClient
  | socksClient
  deriving DecidableEq, Repr

/-- The constant `udpBufSize = 64 * 1024`. -/
def udpBufSize : Nat := 64 * 1024

/-! ## Go slices -/

/-- The slice expression `b[lo:hi]` on a buffer whose capacity is its length. -/
def slice (b : List Byte) (lo hi : Nat) : Option (List Byte) :=
  if lo ≤ hi ∧ hi ≤ b.length then some ((b.take hi).drop lo) else none

/-- Number of elements moved by `copy(b[off:], src)`: the shorter of the two. -/
def copyCount (b : List Byte) (off : Nat) (src : List Byte) : Nat :=
  min (b.length - off) src.length

/-- The buffer after `copy(b[off:], src)`; `src` is read before anything is
written, as the built-in does for overlapping slices. -/
def copyInto (b : List Byte) (off : Nat) (src : List Byte) : Option (List Byte) :=
  if off ≤ b.length then
    some (b.take off ++ src.take (copyCount b off src) ++ b.drop (off + copyCount b off src))
  else none

/-- The buffer after `ReadFrom(buf)` delivered the datagram `data`: at most
`len(buf)` bytes are stored. -/
def readInto (buf data : List Byte) : List Byte :=
  data.take (min data.length buf.length) ++ buf.drop (min data.length buf.length)

/-- The byte count `n` returned by `ReadFrom(buf)` for the datagram `data`. -/
def readCount (buf data : List Byte) : Nat :=
  min data.length buf.length

/-! ## The external address codec -/

/-- The functions of package `socks` and of `net` used by the relay.  An `Addr`
is a byte slice; the nil `Addr` is `none`. -/
structure Codec where
  SplitAddr : List Byte → Option (List Byte)
  ParseAddr : String → Option (List Byte)
  addrString : List Byte → String
  resolve : String → Option UDPAddr

/-- The value `len(a)` of an `Addr`, zero for nil. -/
def addrLen (a : Option (List Byte)) : Nat :=
  match a with
  | some bs => bs.length
  | none => 0

/-- The bytes of an `Addr`, none for nil. -/
def addrBytes (a : Option (List Byte)) : List Byte :=
  match a with
  | some bs => bs
  | none => []

/-! ## Packet NAT table -/

/-- The type `natmap`: the map `m` and the timeout (the lock is not modelled,
every method is one atomic step). -/
structure natmap where
  m : String → Option PacketConn
  timeout : Nat

def newNATmap (timeout : Nat) : natmap :=
  { m := fun _ => none, timeout := timeout }

/-- The method `Get`: the value under `key`, nil when the key is missing;
returned with the table after the call. -/
def natmap.Get (m : natmap) (key : String) : PacketConn × natmap :=
  (match m.m key with
   | some pc => pc
   | none => none, m)

def natmap.Set (m : natmap) (key : String) (pc : PacketConn) : natmap :=
  { m with m := fun k => if k = key then some pc else m.m k }

def natmap.Del (m : natmap) (key : String) : PacketConn × natmap :=
  match m.m key with
  | some pc => (pc, { m with m := fun k => if k = key then none else m.m k })
  | none => (none, m)

/-- An operation on the table, for runs of operations. -/
inductive TableOp
  | get (key : String)
  | set (key : String) (pc : PacketConn)
  | del (key : String)

def TableOp.apply (m : natmap) : TableOp → natmap
  | .get key => (m.Get key).2
  | .set key pc => m.Set key pc
  | .del key => (m.Del key).2

/-- Whether the operation is a `Set` on `key`. -/
def TableOp.setsKey (key : String) : TableOp → Bool
  | .set k _ => k == key
  | _ => false

/-! ## The relay task -/

/-- The body of the `switch role` in `timedCopy`, after a read stored `n` bytes
from `raddr` in `buf`: the datagram handed to `dst.WriteTo` and the buffer
afterwards; `none` is a panic. -/
def frame (cd : Codec) (role : mode) (buf : List Byte) (n : Nat) (raddr : String) :
    Option (List Byte × List Byte) :=
  match role with
  | .remoteServer =>
    let srcAddr := addrBytes (cd.ParseAddr raddr)
    (slice buf 0 n).bind fun reply =>
    (copyInto buf srcAddr.length reply).bind fun buf1 =>
    (copyInto buf1 0 srcAddr).bind fun buf2 =>
    (slice buf2 0 (srcAddr.length + n)).map fun out => (out, buf2)
  | .relayClient =>
    (slice buf 0 n).bind fun b =>
    (slice buf (addrLen (cd.SplitAddr b)) n).map fun out => (out, buf)
  | .socksClient =>
    (slice buf 0 n).map fun b => ([0, 0, 0] ++ b, buf)

/-- One result of `src.ReadFrom` as the environment supplies it: an error
(deadline expiry included), or a datagram with its sender together with the
result the following `dst.WriteTo` will have. -/
inductive Read
  | err (e : GoError)
  | ok (data : List Byte) (raddr : String) (wr : Option GoError)

/-- How a run of `timedCopy` stands after the supplied reads. -/
inductive Exit
  | returned (e : GoError)
  | panicked
  | blocked
  deriving DecidableEq, Repr

/-- A run of `timedCopy`: the datagrams passed to `dst.WriteTo` in order, the
number of `ReadFrom` calls that returned, and how the run stands. -/
structure CopyRun where
  written : List (List Byte)
  reads : Nat
  exit : Exit
  deriving DecidableEq, Repr

/-- The `for` loop of `timedCopy` over the results its reads will have. -/
def timedCopyLoop (cd : Codec) (role : mode) (buf : List Byte) : List Read → CopyRun
  | [] => { written := [], reads := 0, exit := .blocked }
  | .err e :: _ => { written := [], reads := 1, exit := .returned e }
  | .ok data raddr wr :: rest =>
    match frame cd role (readInto buf data) (readCount buf data) raddr with
    | none => { written := [], reads := 1, exit := .panicked }
    | some (out, buf1) =>
      match wr with
      | some e => { written := [out], reads := 1, exit := .returned e }
      | none =>
        let r := timedCopyLoop cd role buf1 rest
        { written := out :: r.written, reads := r.reads + 1, exit := r.exit }

/-- The function `timedCopy`: a fresh buffer of `udpBufSize` bytes, then the loop. -/
def timedCopy (cd : Codec) (role : mode) (reads : List Read) : CopyRun :=
  timedCopyLoop cd role (List.replicate udpBufSize 0) reads

/-! ## The relay as a whole -/

/-- The goroutine started by `natmap.Add`. -/
structure Task where
  peer : String
  dst : PacketConn
  src : PacketConn
  role : mode
  live : Bool
  deriving DecidableEq, Repr

/-- Where the read loop of `udpRemote` stands: iterating, blocked in
`stop <- 1`, past the loop, or stopped by a panic. -/
inductive LoopPhase
  | running
  | acking
  | exited
  | panicked
  deriving DecidableEq, Repr

/-- Where the goroutine of lines 59-63 stands: blocked in `<-stop`, past it,
past `closed = true`, past `c.Close()`. -/
inductive StopPhase
  | waiting
  | signalled
  | flagged
  | done
  deriving DecidableEq, Repr

/-- Who invoked `c.Close()` on the listening socket. -/
inductive Closer
  | shutdownPath
  | readLoop
  deriving DecidableEq, Repr

/-- State of one `udpRemote` instance. -/
structure Relay where
  nm : natmap
  buf : List Byte
  closed : Bool
  loop : LoopPhase
  stopper : StopPhase
  cCloses : List Closer
  tasks : List Task
  closes : List (Nat × Sock)
  listens : List Sock
  sent : List (Sock × List Byte × UDPAddr)

/-- The state `udpRemote` sets up before its goroutines start. -/
def Relay.init (timeout : Nat) : Relay :=
  { nm := newNATmap timeout, buf := List.replicate udpBufSize 0, closed := false,
    loop := .running, stopper := .waiting, cCloses := [], tasks := [], closes := [],
    listens := [], sent := [] }

/-- The method `Add`: `Set`, then a goroutine that runs `timedCopy`. -/
def natmap.Add (st : Relay) (peer : String) (dst src : PacketConn) (role : mode) : Relay :=
  { st with
    nm := st.nm.Set peer src
    tasks := st.tasks ++ [{ peer := peer, dst := dst, src := src, role := role, live := true }] }

/-- The tail of the goroutine of `Add`, run when the `timedCopy` of task `i`
has returned: `Del`, and `Close` on what `Del` returned unless it is nil. -/
def taskExit (st : Relay) (i : Nat) : Relay :=
  match st.tasks[i]? with
  | none => st
  | some t =>
    if t.live then
      let st1 := { st with
        nm := (st.nm.Del t.peer).2
        tasks := st.tasks.set i { t with live := false } }
      match (st.nm.Del t.peer).1 with
      | some pc => { st1 with closes := st.closes ++ [(i, pc)] }
      | none => st1
    else st

/-- What the environment supplies to one iteration of the read loop: the result
of `c.ReadFrom` while `c` is open (`none` is an error), the result
`net.ListenPacket("udp", "")` has if the iteration calls it, and whether the
`WriteTo` succeeds. -/
structure Inbound where
  read : Option (List Byte × String)
  listen : Option Sock
  writeOk : Bool

/-- One iteration of the `for` loop of `udpRemote` on the listening socket `c`. -/
def loopIter (cd : Codec) (c : Sock) (st : Relay) (inb : Inbound) : Relay :=
  if st.loop ≠ .running then st else
  match (if st.cCloses = [] then inb.read else none) with
  | none => if st.closed then { st with loop := .acking } else st
  | some (data, raddr) =>
    let n := readCount st.buf data
    let st0 := { st with buf := readInto st.buf data }
    match slice st0.buf 0 n with
    | none => { st0 with loop := .panicked }
    | some b =>
      match cd.SplitAddr b with
      | none => st0
      | some tgtAddr =>
        match cd.resolve (cd.addrString tgtAddr) with
        | none => st0
        | some tgtUDPAddr =>
          match slice st0.buf tgtAddr.length n with
          | none => { st0 with loop := .panicked }
          | some payload =>
            match (st0.nm.Get raddr).1 with
            | some pc => { st0 with sent := st0.sent ++ [(pc, payload, tgtUDPAddr)] }
            | none =>
              match inb.listen with
              | none => st0
              | some pc =>
                let st1 := natmap.Add st0 raddr (some c) (some pc) .remoteServer
                { st1 with
                  listens := st1.listens ++ [pc]
                  sent := st1.sent ++ [(pc, payload, tgtUDPAddr)] }

/-- The atomic pieces of the goroutines of `udpRemote`. -/
inductive Event
  | stopRequest
  | shutdownStep
  | ackReceived
  | datagram (inb : Inbound)
  | taskExit (i : Nat)

/-- The effect of one event.  `stopRequest` is the first send of `ch.Close`
meeting `<-stop`; `shutdownStep` is the next statement of lines 61-62;
`ackReceived` is the second select of `ch.Close` meeting `stop <- 1`, after
which the loop breaks and its deferred `c.Close()` runs. -/
def step (cd : Codec) (c : Sock) (st : Relay) : Event → Relay
  | .stopRequest =>
    if st.stopper = .waiting then { st with stopper := .signalled } else st
  | .shutdownStep =>
    match st.stopper with
    | .signalled => { st with stopper := .flagged, closed := true }
    | .flagged => { st with stopper := .done, cCloses := st.cCloses ++ [.shutdownPath] }
    | _ => st
  | .ackReceived =>
    if st.loop = .acking then
      { st with loop := .exited, cCloses := st.cCloses ++ [.readLoop] }
    else st
  | .datagram inb => loopIter cd c st inb
  | .taskExit i => taskExit st i

def run (cd : Codec) (c : Sock) (st : Relay) (evs : List Event) : Relay :=
  evs.foldl (step cd c) st

/-- Calls of `Add` and exits of relay tasks on one table. -/
inductive NatEvent
  | add (peer : String) (dst src : PacketConn) (role : mode)
  | exit (i : Nat)

def natStep (st : Relay) : NatEvent → Relay
  | .add peer dst src role => natmap.Add st peer dst src role
  | .exit i => taskExit st i

def natRun (st : Relay) (evs : List NatEvent) : Relay :=
  evs.foldl natStep st

/-! ## The transforms as specified, and concrete inputs -/

/-- The datagram a role is specified to produce from a reply `p` sent by
`raddr`: the encoded sender address followed by the reply (`remote-server`),
the reply without its leading address atom (`relay-client`), the reply behind
three zero bytes (`socks-client`). -/
def roleDatagram (cd : Codec) (role : mode) (p : List Byte) (raddr : String) : List Byte :=
  match role with
  | .remoteServer => addrBytes (cd.ParseAddr raddr) ++ p
  | .relayClient => p.drop (addrLen (cd.SplitAddr p))
  | .socksClient => [0, 0, 0] ++ p

/-- Whether the role switch stays inside a buffer of `cap` bytes for the reply
`p` from `raddr`. -/
def fits (cd : Codec) (role : mode) (cap : Nat) (p : List Byte) (raddr : String) : Bool :=
  match role with
  | .remoteServer => decide ((addrBytes (cd.ParseAddr raddr)).length + p.length ≤ cap)
  | .relayClient => decide (addrLen (cd.SplitAddr p) ≤ p.length)
  | .socksClient => true

/-- The address atom of `1.2.3.4:53`: type 1, four address bytes, the port. -/
def v4Atom : List Byte := [1, 1, 2, 3, 4, 0, 53]

/-- The address atom of `[2001:db8::1]:53`: type 4, sixteen address bytes, the port. -/
def v6Atom : List Byte :=
  [4, 0x20, 0x01, 0x0d, 0xb8, 0, 0, 0, 0, 0, 0, 0, 0, 0, 0, 0, 1, 0, 53]

/-- A codec to evaluate concrete runs with.  It splits the three atom layouts
(type 1: 7 bytes, type 4: 19 bytes, type 3: length-prefixed name) and knows the
text form of the two endpoints above. -/
def sampleCodec : Codec where
  SplitAddr b :=
    match b with
    | [] => none
    | t :: rest =>
      if t = 1 then (if 7 ≤ b.length then some (b.take 7) else none)
      else if t = 4 then (if 19 ≤ b.length then some (b.take 19) else none)
      else if t = 3 then
        match rest with
        | [] => none
        | l :: _ => if 4 + l.toNat ≤ b.length then some (b.take (4 + l.toNat)) else none
      else none
  ParseAddr s :=
    if s = "1.2.3.4:53" then some v4Atom
    else if s = "[2001:db8::1]:53" then some v6Atom
    else none
  addrString a :=
    if a = v4Atom then "1.2.3.4:53"
    else if a = v6Atom then "[2001:db8::1]:53"
    else ""
  resolve s := if s = "" then none else some s

/-- A reply of 65527 bytes, the largest UDP payload an IPv6 peer can send. -/
def bigReply : List Byte := List.replicate 65527 0x41

/-- What the listener is specified to forward for one inbound datagram, with
a buffer of `cap` bytes: the sending endpoint, the payload after the address
atom and the resolved target, when the read succeeds, the atom splits off
inside the datagram and its address resolves. -/
def decode (cd : Codec) (cap : Nat) (inb : Inbound) : Option (String × List Byte × UDPAddr) :=
  match inb.read with
  | none => none
  | some (data, raddr) =>
    match cd.SplitAddr (data.take cap) with
    | none => none
    | some a =>
      if a.length ≤ (data.take cap).length then
        match cd.resolve (cd.addrString a) with
        | none => none
        | some t => some (raddr, (data.take cap).drop a.length, t)
      else none

/-- A datagram of client `10.0.0.1:4000` for `1.2.3.4:53` with payload `q`,
read while `ListenPacket` would return `listen`. -/
def dnsQuery (q : List Byte) (listen : Option Sock) : Inbound :=
  { read := some (v4Atom ++ q, "10.0.0.1:4000"), listen := listen, writeOk := true }

/-- An iteration whose `c.ReadFrom` returns an error. -/
def readError : Inbound :=
  { read := none, listen := none, writeOk := true }

/-- A datagram of client `10.0.0.1:4000` for `[2001:db8::1]:53` with payload `q`. -/
def dnsQuery6 (q : List Byte) (listen : Option Sock) : Inbound :=
  { read := some (v6Atom ++ q, "10.0.0.1:4000"), listen := listen, writeOk := true }

/-! ## Invariants of the runs -/

/-- What every reachable state satisfies about the calls of `c.Close()`. -/
structure CloseInv (st : Relay) : Prop where
  byShutdown : st.cCloses.count .shutdownPath = if st.stopper = .done then 1 else 0
  byLoop : st.cCloses.count .readLoop = if st.loop = .exited then 1 else 0
  flag : st.closed = true ↔ (st.stopper = .flagged ∨ st.stopper = .done)
  leaving : st.loop = .acking ∨ st.loop = .exited → st.closed = true

/-- What holds of table, tasks and closed sockets as long as every `Add` is made
for an endpoint without an entry and with a socket of its own: a live task has
its socket under its endpoint, live tasks have distinct endpoints, tasks have
distinct sockets, and a socket was closed by the exit of its own task, once. -/
structure NatInv (st : Relay) : Prop where
  entry : ∀ (i : Nat) (t : Task), st.tasks[i]? = some t → t.live = true →
    ∃ s, t.src = some s ∧ st.nm.m t.peer = some (some s)
  peers : ∀ (i j : Nat) (ti tj : Task), st.tasks[i]? = some ti → st.tasks[j]? = some tj →
    ti.live = true → tj.live = true → ti.peer = tj.peer → i = j
  socks : ∀ (i j : Nat) (ti tj : Task), st.tasks[i]? = some ti → st.tasks[j]? = some tj →
    ti.src = tj.src → i = j
  own : ∀ (i : Nat) (s : Sock), (i, s) ∈ st.closes →
    ∃ t, st.tasks[i]? = some t ∧ t.src = some s ∧ t.live = false
  onceTask : (st.closes.map Prod.fst).Nodup
  onceSock : (st.closes.map Prod.snd).Nodup

/-- Whether every `Add` of the run is made the way the read loop of `udpRemote`
makes it: `Get` on the endpoint returned nil, and the socket is an open one
that no earlier task was given. -/
def guarded (st : Relay) : List NatEvent → Bool
  | [] => true
  | .add peer dst src role :: evs =>
    (st.nm.Get peer).1 == none && src.isSome && st.tasks.all (fun t => t.src != src) &&
      guarded (natStep st (.add peer dst src role)) evs
  | .exit i :: evs => guarded (natStep st (.exit i)) evs

/-- Whether every socket `net.ListenPacket` returns during the run is a new
one: none that an earlier relay task was started with. -/
def freshListens (cd : Codec) (c : Sock) (st : Relay) : List Event → Bool
  | [] => true
  | .datagram inb :: evs =>
    (match inb.listen with
      | some pc => st.tasks.all (fun t => t.src != some pc)
      | none => true) &&
      freshListens cd c (step cd c st (.datagram inb)) evs
  | ev :: evs => freshListens cd c (step cd c st ev) evs

/-! ## Go slices: bounds and contents -/

theorem slice_eq (b : List Byte) (lo hi : Nat) (h1 : lo ≤ hi) (h2 : hi ≤ b.length) :
    slice b lo hi = some ((b.take hi).drop lo) := by
  simp [slice, h1, h2]

theorem slice_none (b : List Byte) (lo hi : Nat) (h : b.length < hi) :
    slice b lo hi = none := by
  simp only [slice, ite_eq_right_iff]
  intro h2
  omega

theorem copyInto_length (b src b1 : List Byte) (off : Nat) (h : copyInto b off src = some b1) :
    b1.length = b.length := by
  unfold copyInto at h
  split at h
  · simp only [Option.some.injEq] at h
    subst h
    simp only [List.length_append, List.length_take, List.length_drop, copyCount]
    omega
  · simp at h

theorem readInto_length (buf data : List Byte) : (readInto buf data).length = buf.length := by
  simp only [readInto, List.length_append, List.length_take, List.length_drop]
  omega

theorem readCount_le (buf data : List Byte) : readCount buf data ≤ buf.length := by
  simp only [readCount]; omega

theorem readInto_take (buf data : List Byte) :
    (readInto buf data).take (readCount buf data) = data.take buf.length := by
  simp only [readInto, readCount]
  rw [List.take_append_of_le_length (by simp)]
  rw [List.take_take]
  by_cases h : data.length ≤ buf.length
  · rw [List.take_of_length_le (by omega), List.take_of_length_le h]
  · congr 1
    omega

theorem copyInto_shift (buf : List Byte) (L n : Nat) (h : L + n ≤ buf.length) :
    copyInto buf L (buf.take n) = some (buf.take L ++ buf.take n ++ buf.drop (L + n)) := by
  have hc : copyCount buf L (buf.take n) = n := by
    simp only [copyCount, List.length_take]; omega
  have hL : L ≤ buf.length := by omega
  simp only [copyInto, hL, if_true, hc, List.take_take, min_self]

theorem copyInto_front (b a : List Byte) (h : a.length ≤ b.length) :
    copyInto b 0 a = some (a ++ b.drop a.length) := by
  have hc : copyCount b 0 a = a.length := by
    simp only [copyCount]; omega
  simp [copyInto, hc]
/-! ## Properties of the NAT table -/

theorem natmap.Get_fst (m : natmap) (k : String) :
    (m.Get k).1 = (match m.m k with
      | some pc => pc
      | none => none) := rfl

theorem natmap.Get_snd (m : natmap) (k : String) : (m.Get k).2 = m := rfl

theorem natmap.Set_m (m : natmap) (k j : String) (pc : PacketConn) :
    (m.Set k pc).m j = if j = k then some pc else m.m j := rfl

theorem natmap.Del_m (m : natmap) (k j : String) :
    (m.Del k).2.m j = if j = k then none else m.m j := by
  unfold natmap.Del
  cases h : m.m k with
  | none =>
    by_cases hj : j = k
    · simp [hj, h]
    · simp [hj]
  | some pc => simp

theorem natmap.Del_of_none (m : natmap) (k : String) (h : m.m k = none) :
    m.Del k = (none, m) := by
  simp [natmap.Del, h]

theorem natmap.Del_fst (m : natmap) (k : String) :
    (m.Del k).1 = (m.Get k).1 := by
  unfold natmap.Del natmap.Get
  cases h : m.m k <;> simp

theorem natmap.Del_timeout (m : natmap) (k : String) :
    (m.Del k).2.timeout = m.timeout := by
  unfold natmap.Del
  cases h : m.m k <;> simp

theorem natmap.ext_m (a b : natmap) (hm : ∀ j, a.m j = b.m j) (ht : a.timeout = b.timeout) :
    a = b := by
  cases a
  cases b
  simp only [natmap.mk.injEq]
  exact ⟨funext hm, ht⟩

theorem natmap.Get_after_ops (k : String) (ops : List TableOp)
    (hops : ∀ op ∈ ops, op.setsKey k = false) :
    ∀ m : natmap, (m.Get k).1 = none → ((ops.foldl TableOp.apply m).Get k).1 = none := by
  induction ops with
  | nil => intro m h; simpa using h
  | cons op ops ih =>
    intro m h
    simp only [List.foldl_cons]
    apply ih (fun o ho => hops o (List.mem_cons_of_mem _ ho))
    have hop := hops op (List.mem_cons_self _ _)
    cases op with
    | get key => simpa [TableOp.apply, natmap.Get_snd] using h
    | set key pc =>
      have hne : ¬ k = key := by
        intro hk
        simp [TableOp.setsKey, hk] at hop
      simpa [TableOp.apply, natmap.Get_fst, natmap.Set_m, hne] using h
    | del key =>
      by_cases hk : k = key
      · simp [TableOp.apply, natmap.Get_fst, natmap.Del_m, hk]
      · simpa [TableOp.apply, natmap.Get_fst, natmap.Del_m, hk] using h

/-- C5: `Del` on a key present with socket `s` returns `s` and afterwards `Get`
finds nothing; on a missing key it returns nil and leaves the table as it was;
a second `Del` of the same key returns nil and changes nothing; entries under
other keys are untouched. -/
theorem natmap_Del_spec (m : natmap) (k : String) :
    (∀ s, m.m k = some s → (m.Del k).1 = s ∧ ((m.Del k).2.Get k).1 = none) ∧
    (m.m k = none → (m.Del k).1 = none ∧ (m.Del k).2 = m) ∧
    ((m.Del k).2.Del k).2 = (m.Del k).2 ∧ ((m.Del k).2.Del k).1 = none ∧
    (∀ j, j ≠ k → (m.Del k).2.m j = m.m j ∧ ((m.Del k).2.Get j).1 = (m.Get j).1) := by
  have hgone : (m.Del k).2.m k = none := by simp [natmap.Del_m]
  refine ⟨?_, ?_, ?_, ?_, ?_⟩
  · intro s hs
    refine ⟨?_, ?_⟩
    · simp [natmap.Del, hs]
    · simp [natmap.Get_fst, hgone]
  · intro h
    simp [natmap.Del, h]
  · rw [natmap.Del_of_none _ _ hgone]
  · rw [natmap.Del_of_none _ _ hgone]
  · intro j hj
    have hm : (m.Del k).2.m j = m.m j := by simp [natmap.Del_m, hj]
    exact ⟨hm, by simp [natmap.Get_fst, hm]⟩

theorem natmap_Del_spec_witness :
    (((newNATmap 60).Set "10.0.0.1:4000" (some 7)).Del "10.0.0.1:4000").1 = some 7 ∧
    ((newNATmap 60).Del "10.0.0.1:4000").2 = newNATmap 60 ∧
    ((((newNATmap 60).Set "10.0.0.1:4000" (some 7)).Del "10.0.0.2:4000").2.Get
      "10.0.0.1:4000").1 = some 7 :=
  ⟨((natmap_Del_spec ((newNATmap 60).Set "10.0.0.1:4000" (some 7)) "10.0.0.1:4000").1
      (some 7) (by decide)).1,
   ((natmap_Del_spec (newNATmap 60) "10.0.0.1:4000").2.1 rfl).2,
   (((natmap_Del_spec ((newNATmap 60).Set "10.0.0.1:4000" (some 7)) "10.0.0.2:4000").2.2.2.2
      "10.0.0.1:4000" (by decide)).2).trans (by decide)⟩

/-- C6: after `Set(k, s)` `Get(k)` returns `s` whatever was there before, `Get`
on any other key returns what it returned before, `Get` on a key that no `Set`
was made on since `newNATmap`, or that was just deleted, returns nil, and `Get`
leaves the table as it was. -/
theorem natmap_Set_Get_spec (m : natmap) (k : String) (s : PacketConn) :
    ((m.Set k s).Get k).1 = s ∧
    (∀ j, j ≠ k → ((m.Set k s).Get j).1 = (m.Get j).1) ∧
    (∀ (t : Nat) (ops : List TableOp), (∀ op ∈ ops, TableOp.setsKey k op = false) →
      ((ops.foldl TableOp.apply (newNATmap t)).Get k).1 = none) ∧
    ((m.Del k).2.Get k).1 = none ∧
    (m.Get k).2 = m ∧ ((m.Set k s).Get k).2 = m.Set k s := by
  refine ⟨?_, ?_, ?_, ?_, rfl, rfl⟩
  · simp [natmap.Get_fst, natmap.Set_m]
  · intro j hj
    simp [natmap.Get_fst, natmap.Set_m, hj]
  · intro t ops hops
    exact natmap.Get_after_ops k ops hops (newNATmap t) rfl
  · simp [natmap.Get_fst, natmap.Del_m]

theorem natmap_Set_Get_spec_witness :
    (((newNATmap 60).Set "10.0.0.1:4000" (some 7)).Get "10.0.0.2:4000").1 = none ∧
    ((([TableOp.set "10.0.0.2:4000" (some 3), TableOp.del "10.0.0.2:4000"].foldl TableOp.apply
      (newNATmap 60)).Get "10.0.0.1:4000").1 = none) :=
  ⟨((natmap_Set_Get_spec (newNATmap 60) "10.0.0.1:4000" (some 7)).2.1 "10.0.0.2:4000"
      (by decide)).trans rfl,
   (natmap_Set_Get_spec (newNATmap 60) "10.0.0.1:4000" none).2.2.1 60 _ (by decide)⟩

/-! ## The role switch of the relay task -/

theorem frame_remoteServer_ok (cd : Codec) (buf : List Byte) (n : Nat) (raddr : String)
    (h : (addrBytes (cd.ParseAddr raddr)).length + n ≤ buf.length) :
    frame cd .remoteServer buf n raddr =
      some (addrBytes (cd.ParseAddr raddr) ++ buf.take n,
        addrBytes (cd.ParseAddr raddr) ++ buf.take n ++
          buf.drop ((addrBytes (cd.ParseAddr raddr)).length + n)) := by
  simp only [frame]
  generalize addrBytes (cd.ParseAddr raddr) = a at h ⊢
  have hn : n ≤ buf.length := by omega
  have hL : a.length ≤ buf.length := by omega
  have h1 : slice buf 0 n = some (buf.take n) := by
    rw [slice_eq buf 0 n (Nat.zero_le _) hn]; simp
  have hlen1 : a.length ≤ (buf.take a.length ++ buf.take n ++ buf.drop (a.length + n)).length := by
    simp only [List.length_append, List.length_take, List.length_drop]; omega
  have hdrop : (buf.take a.length ++ buf.take n ++ buf.drop (a.length + n)).drop a.length =
      buf.take n ++ buf.drop (a.length + n) := by
    rw [List.append_assoc, List.drop_append_of_le_length (by simp [hL])]
    rw [List.drop_of_length_le (by simp)]
    simp
  have h4 : slice (a ++ (buf.take n ++ buf.drop (a.length + n))) 0 (a.length + n) =
      some (a ++ buf.take n) := by
    rw [slice_eq _ 0 _ (Nat.zero_le _) (by
      simp only [List.length_append, List.length_take, List.length_drop]; omega)]
    simp only [List.drop_zero, Option.some.injEq]
    rw [← List.append_assoc, List.take_append_of_le_length (by simp [hn])]
    rw [List.take_of_length_le (by simp [hn])]
  rw [h1]
  simp only [Option.some_bind]
  rw [copyInto_shift buf a.length n h]
  simp only [Option.some_bind]
  rw [copyInto_front _ a hlen1]
  simp only [Option.some_bind]
  rw [hdrop, h4]
  simp

theorem frame_remoteServer_none (cd : Codec) (buf : List Byte) (n : Nat) (raddr : String)
    (h : buf.length < (addrBytes (cd.ParseAddr raddr)).length + n) :
    frame cd .remoteServer buf n raddr = none := by
  simp only [frame]
  generalize addrBytes (cd.ParseAddr raddr) = a at h ⊢
  cases h1 : slice buf 0 n with
  | none => rfl
  | some reply =>
    simp only [Option.some_bind]
    cases h2 : copyInto buf a.length reply with
    | none => rfl
    | some buf1 =>
      simp only [Option.some_bind]
      cases h3 : copyInto buf1 0 a with
      | none => rfl
      | some buf2 =>
        have hl : buf2.length = buf.length := by
          rw [copyInto_length _ _ _ _ h3, copyInto_length _ _ _ _ h2]
        simp only [Option.some_bind]
        rw [slice_none buf2 0 _ (by omega)]
        rfl

theorem frame_relayClient_ok (cd : Codec) (buf : List Byte) (n : Nat) (raddr : String)
    (hn : n ≤ buf.length) (hL : addrLen (cd.SplitAddr (buf.take n)) ≤ n) :
    frame cd .relayClient buf n raddr =
      some ((buf.take n).drop (addrLen (cd.SplitAddr (buf.take n))), buf) := by
  have h1 : slice buf 0 n = some (buf.take n) := by
    rw [slice_eq buf 0 n (Nat.zero_le _) hn]; simp
  simp only [frame, h1, Option.some_bind, slice_eq buf _ n hL hn, Option.map_some']

theorem frame_socksClient_ok (cd : Codec) (buf : List Byte) (n : Nat) (raddr : String)
    (hn : n ≤ buf.length) :
    frame cd .socksClient buf n raddr = some ([0, 0, 0] ++ buf.take n, buf) := by
  have h1 : slice buf 0 n = some (buf.take n) := by
    rw [slice_eq buf 0 n (Nat.zero_le _) hn]; simp
  simp only [frame, h1, Option.map_some']

theorem udpBufSize_eq : udpBufSize = 65536 := rfl

theorem frame_after_read (cd : Codec) (role : mode) (buf data : List Byte) (raddr : String)
    (hfit : fits cd role buf.length (data.take buf.length) raddr = true) :
    ∃ buf1, buf1.length = buf.length ∧
      frame cd role (readInto buf data) (readCount buf data) raddr =
        some (roleDatagram cd role (data.take buf.length) raddr, buf1) := by
  have hl := readInto_length buf data
  have hn := readCount_le buf data
  have ht := readInto_take buf data
  have hpl : (data.take buf.length).length = readCount buf data := by
    simp only [List.length_take, readCount]; omega
  cases role with
  | remoteServer =>
    simp only [fits, decide_eq_true_eq, hpl] at hfit
    refine ⟨addrBytes (cd.ParseAddr raddr) ++ (readInto buf data).take (readCount buf data) ++
      (readInto buf data).drop ((addrBytes (cd.ParseAddr raddr)).length + readCount buf data),
      ?_, ?_⟩
    · simp only [List.length_append, List.length_take, List.length_drop, hl]
      omega
    · rw [frame_remoteServer_ok cd _ _ raddr (by omega), ht]
      rfl
  | relayClient =>
    simp only [fits, decide_eq_true_eq, hpl] at hfit
    refine ⟨_, hl, ?_⟩
    rw [frame_relayClient_ok cd _ _ raddr (by omega) (by rw [ht]; exact hfit), ht]
    rfl
  | socksClient =>
    refine ⟨_, hl, ?_⟩
    rw [frame_socksClient_ok cd _ _ raddr (by omega), ht]
    rfl

theorem frame_after_read_none (cd : Codec) (buf data : List Byte) (raddr : String)
    (h : buf.length < (addrBytes (cd.ParseAddr raddr)).length + (data.take buf.length).length) :
    frame cd .remoteServer (readInto buf data) (readCount buf data) raddr = none := by
  apply frame_remoteServer_none
  rw [readInto_length]
  simp only [List.length_take, readCount] at h ⊢
  omega

/-! ## The relay task over its reads -/

theorem timedCopyLoop_ok_cons (cd : Codec) (role : mode) (buf data : List Byte) (raddr : String)
    (rest : List Read)
    (hfit : fits cd role buf.length (data.take buf.length) raddr = true) :
    ∃ buf1, buf1.length = buf.length ∧
      timedCopyLoop cd role buf (.ok data raddr none :: rest) =
        { written := roleDatagram cd role (data.take buf.length) raddr ::
            (timedCopyLoop cd role buf1 rest).written
          reads := (timedCopyLoop cd role buf1 rest).reads + 1
          exit := (timedCopyLoop cd role buf1 rest).exit } := by
  obtain ⟨buf1, hlen, hf⟩ := frame_after_read cd role buf data raddr hfit
  refine ⟨buf1, hlen, ?_⟩
  simp only [timedCopyLoop, hf]

theorem timedCopyLoop_write_error (cd : Codec) (role : mode) (buf data : List Byte)
    (raddr : String) (e : GoError) (rest : List Read)
    (hfit : fits cd role buf.length (data.take buf.length) raddr = true) :
    timedCopyLoop cd role buf (.ok data raddr (some e) :: rest) =
      { written := [roleDatagram cd role (data.take buf.length) raddr]
        reads := 1
        exit := .returned e } := by
  obtain ⟨buf1, _, hf⟩ := frame_after_read cd role buf data raddr hfit
  simp only [timedCopyLoop, hf]

/-- As long as every reply fits the relay buffer, `k` successful reads followed
by a failing step give one write per read, in order, each the transform of its
read, and the failing step ends the loop. -/
theorem timedCopyLoop_leading (cd : Codec) (role : mode) (cap : Nat)
    (oks : List (List Byte × String)) (tail : List Read) :
    ∀ buf : List Byte, buf.length = cap →
      (∀ r ∈ oks, fits cd role cap (r.1.take cap) r.2 = true) →
      ∃ buf1, buf1.length = cap ∧
        timedCopyLoop cd role buf (oks.map (fun r => Read.ok r.1 r.2 none) ++ tail) =
          { written := oks.map (fun r => roleDatagram cd role (r.1.take cap) r.2) ++
              (timedCopyLoop cd role buf1 tail).written
            reads := oks.length + (timedCopyLoop cd role buf1 tail).reads
            exit := (timedCopyLoop cd role buf1 tail).exit } := by
  induction oks with
  | nil =>
    intro buf hbuf _
    exact ⟨buf, hbuf, by simp⟩
  | cons r oks ih =>
    intro buf hbuf hfit
    have hr := hfit r (List.mem_cons_self _ _)
    rw [← hbuf] at hr
    obtain ⟨buf1, hlen1, h1⟩ :=
      timedCopyLoop_ok_cons cd role buf r.1 r.2
        (oks.map (fun r => Read.ok r.1 r.2 none) ++ tail) hr
    obtain ⟨buf2, hlen2, h2⟩ :=
      ih buf1 (hlen1.trans hbuf) (fun x hx => hfit x (List.mem_cons_of_mem _ hx))
    refine ⟨buf2, hlen2, ?_⟩
    simp only [List.map_cons, List.cons_append, h1, h2, hbuf, List.length_cons]
    simp only [CopyRun.mk.injEq, and_true, true_and]
    omega

theorem fresh_buf_length : (List.replicate udpBufSize (0 : Byte)).length = udpBufSize :=
  List.length_replicate _ _

theorem bigReply_length : bigReply.length = 65527 :=
  List.length_replicate _ _

theorem timedCopy_single_written (cd : Codec) (role : mode) (p : List Byte) (raddr : String)
    (wr : Option GoError) (hp : p.length ≤ udpBufSize)
    (hfit : fits cd role udpBufSize p raddr = true) :
    (timedCopy cd role [.ok p raddr wr]).written = [roleDatagram cd role p raddr] := by
  have htake : p.take (List.replicate udpBufSize (0 : Byte)).length = p := by
    rw [fresh_buf_length]
    exact List.take_of_length_le hp
  have hfit1 : fits cd role (List.replicate udpBufSize (0 : Byte)).length
      (p.take (List.replicate udpBufSize (0 : Byte)).length) raddr = true := by
    rw [htake, fresh_buf_length]
    exact hfit
  obtain ⟨buf1, _, hf⟩ := frame_after_read cd role _ p raddr hfit1
  rw [htake] at hf
  cases wr with
  | none => simp only [timedCopy, timedCopyLoop, hf]
  | some e => simp only [timedCopy, timedCopyLoop, hf]

/-- C10: for a read of `n ≤ 65536` bytes and a sender atom of `L` bytes, the
shift `copy(buf[L:], buf[:n])` moves all `n` bytes and the slice `buf[:L+n]` is
within the relay buffer exactly when `L + n ≤ 65536`, and then the datagram is
the atom followed by the reply; when `L + n > 65536` the slice is out of range
and the shift, where `buf[L:]` exists, moves only `65536 - L < n` bytes. -/
theorem remoteServer_shift_safe_iff (cd : Codec) (buf : List Byte) (n : Nat) (raddr : String)
    (hbuf : buf.length = udpBufSize) (hn : n ≤ udpBufSize) :
    ((copyCount buf (addrBytes (cd.ParseAddr raddr)).length (buf.take n) = n ∧
        (frame cd .remoteServer buf n raddr).isSome = true) ↔
      (addrBytes (cd.ParseAddr raddr)).length + n ≤ 65536) ∧
    ((addrBytes (cd.ParseAddr raddr)).length + n ≤ 65536 →
      (frame cd .remoteServer buf n raddr).map Prod.fst =
        some (addrBytes (cd.ParseAddr raddr) ++ buf.take n)) ∧
    (65536 < (addrBytes (cd.ParseAddr raddr)).length + n →
      frame cd .remoteServer buf n raddr = none ∧
      slice buf 0 ((addrBytes (cd.ParseAddr raddr)).length + n) = none ∧
      ((addrBytes (cd.ParseAddr raddr)).length ≤ 65536 →
        copyCount buf (addrBytes (cd.ParseAddr raddr)).length (buf.take n) =
          65536 - (addrBytes (cd.ParseAddr raddr)).length ∧
        65536 - (addrBytes (cd.ParseAddr raddr)).length < n)) := by
  have hcap := udpBufSize_eq
  have hcount : copyCount buf (addrBytes (cd.ParseAddr raddr)).length (buf.take n) =
      min (65536 - (addrBytes (cd.ParseAddr raddr)).length) n := by
    simp only [copyCount, List.length_take, hbuf, hcap]
    omega
  refine ⟨⟨?_, ?_⟩, ?_, ?_⟩
  · rintro ⟨_, hsome⟩
    by_contra hlt
    rw [frame_remoteServer_none cd buf n raddr (by omega)] at hsome
    simp at hsome
  · intro hle
    refine ⟨by rw [hcount]; omega, ?_⟩
    rw [frame_remoteServer_ok cd buf n raddr (by omega)]
    rfl
  · intro hle
    rw [frame_remoteServer_ok cd buf n raddr (by omega)]
    rfl
  · intro hgt
    refine ⟨frame_remoteServer_none cd buf n raddr (by omega), slice_none _ _ _ (by omega), ?_⟩
    intro hL
    rw [hcount]
    omega

theorem remoteServer_shift_safe_iff_witness :
    (frame sampleCodec .remoteServer (readInto (List.replicate udpBufSize 0) bigReply) 65527
      "[2001:db8::1]:53" = none) ∧
    (frame sampleCodec .remoteServer (readInto (List.replicate udpBufSize 0) bigReply) 65527
      "1.2.3.4:53").isSome = true :=
  ⟨((remoteServer_shift_safe_iff sampleCodec (readInto (List.replicate udpBufSize 0) bigReply)
      65527 "[2001:db8::1]:53" (by rw [readInto_length, fresh_buf_length]) (by decide)).2.2
      (by decide)).1,
   ((remoteServer_shift_safe_iff sampleCodec (readInto (List.replicate udpBufSize 0) bigReply)
      65527 "1.2.3.4:53" (by rw [readInto_length, fresh_buf_length]) (by decide)).1.2
      (by decide)).2⟩

theorem timedCopyLoop_panics (cd : Codec) (role : mode) (buf data : List Byte) (raddr : String)
    (wr : Option GoError) (rest : List Read)
    (h : frame cd role (readInto buf data) (readCount buf data) raddr = none) :
    timedCopyLoop cd role buf (.ok data raddr wr :: rest) =
      { written := [], reads := 1, exit := .panicked } := by
  simp only [timedCopyLoop, h]

theorem bigReply_frame_none :
    frame sampleCodec .remoteServer (readInto (List.replicate udpBufSize 0) bigReply)
      (readCount (List.replicate udpBufSize 0) bigReply) "[2001:db8::1]:53" = none := by
  apply frame_after_read_none
  rw [fresh_buf_length, List.length_take, bigReply_length]
  decide

/-- In the `remoteServer` role a reply that leaves room for the sender atom is
written as the atom followed by the reply. -/
theorem timedCopy_remoteServer_in_range (cd : Codec) (p : List Byte) (raddr : String)
    (wr : Option GoError)
    (h : (addrBytes (cd.ParseAddr raddr)).length + p.length ≤ udpBufSize) :
    (timedCopy cd .remoteServer [.ok p raddr wr]).written =
      [addrBytes (cd.ParseAddr raddr) ++ p] :=
  timedCopy_single_written cd .remoteServer p raddr wr (by omega)
    (by simp only [fits, decide_eq_true_eq]; exact h)

/-- With every reply fitting the relay buffer: `k` successful reads and writes
followed by a read error give `k` writes, the transforms of the reads in order,
and the read error is returned. -/
theorem timedCopy_reads_then_error (cd : Codec) (role : mode)
    (oks : List (List Byte × String)) (e : GoError)
    (hfit : ∀ r ∈ oks, fits cd role udpBufSize (r.1.take udpBufSize) r.2 = true) :
    timedCopy cd role (oks.map (fun r => Read.ok r.1 r.2 none) ++ [.err e]) =
      { written := oks.map (fun r => roleDatagram cd role (r.1.take udpBufSize) r.2)
        reads := oks.length + 1
        exit := .returned e } := by
  obtain ⟨buf1, _, h⟩ := timedCopyLoop_leading cd role udpBufSize oks [.err e]
    (List.replicate udpBufSize 0) fresh_buf_length hfit
  simp only [timedCopy, h, timedCopyLoop, List.append_nil]

/-- With every reply fitting the relay buffer: when the write after the `j`-th
read fails, that error is returned, and whatever reads would follow are not
taken. -/
theorem timedCopy_write_fails (cd : Codec) (role : mode)
    (oks : List (List Byte × String)) (data : List Byte) (raddr : String) (e : GoError)
    (rest : List Read)
    (hfit : ∀ r ∈ oks, fits cd role udpBufSize (r.1.take udpBufSize) r.2 = true)
    (hlast : fits cd role udpBufSize (data.take udpBufSize) raddr = true) :
    timedCopy cd role (oks.map (fun r => Read.ok r.1 r.2 none) ++
        (.ok data raddr (some e) :: rest)) =
      { written := oks.map (fun r => roleDatagram cd role (r.1.take udpBufSize) r.2) ++
          [roleDatagram cd role (data.take udpBufSize) raddr]
        reads := oks.length + 1
        exit := .returned e } := by
  obtain ⟨buf1, hlen, h⟩ := timedCopyLoop_leading cd role udpBufSize oks
    (.ok data raddr (some e) :: rest) (List.replicate udpBufSize 0) fresh_buf_length hfit
  rw [← hlen] at hlast
  simp only [timedCopy, h, timedCopyLoop_write_error cd role buf1 data raddr e rest hlast, hlen]

theorem timedCopyLoop_head (cd : Codec) (role : mode) (buf data : List Byte) (raddr : String)
    (wr : Option GoError) (rest : List Read)
    (hfit : fits cd role buf.length (data.take buf.length) raddr = true) :
    ∃ more, (timedCopyLoop cd role buf (.ok data raddr wr :: rest)).written =
      roleDatagram cd role (data.take buf.length) raddr :: more := by
  obtain ⟨buf1, _, hf⟩ := frame_after_read cd role buf data raddr hfit
  cases wr with
  | none => exact ⟨(timedCopyLoop cd role buf1 rest).written, by simp only [timedCopyLoop, hf]⟩
  | some e => exact ⟨[], by simp only [timedCopyLoop, hf]⟩

theorem relayClient_fits (cd : Codec) (p : List Byte) (raddr : String)
    (hp : p.length ≤ udpBufSize) (hL : addrLen (cd.SplitAddr p) ≤ p.length) :
    p.take udpBufSize = p ∧
    fits cd .relayClient udpBufSize (p.take udpBufSize) raddr = true := by
  have ht : p.take udpBufSize = p := List.take_of_length_le hp
  refine ⟨ht, ?_⟩
  rw [ht]
  simp only [fits, decide_eq_true_eq]
  exact hL

/-- C7: in the `relayClient` role every reply of `n` bytes whose leading atom,
as `SplitAddr` returns it, has length `L ≤ n` is written without its first `L`
bytes, wherever it comes in the run: whatever the relay buffer holds when it is
read, after any number of earlier replies of that kind, and whatever follows.
The datagram has `n - L` bytes, each the byte `L` places further in the reply;
when `SplitAddr` returns nil the whole reply is written. -/
theorem timedCopy_relayClient_strips (cd : Codec) (oks : List (List Byte × String))
    (p : List Byte) (raddr : String) (wr : Option GoError) (rest : List Read) (e : GoError)
    (hpre : ∀ r ∈ oks, r.1.length ≤ udpBufSize ∧ addrLen (cd.SplitAddr r.1) ≤ r.1.length)
    (hp : p.length ≤ udpBufSize) (hL : addrLen (cd.SplitAddr p) ≤ p.length) :
    (∀ buf : List Byte, buf.length = udpBufSize →
      (timedCopyLoop cd .relayClient buf (.ok p raddr wr :: rest)).written.head? =
        some (p.drop (addrLen (cd.SplitAddr p)))) ∧
    (timedCopy cd .relayClient
        (oks.map (fun r => Read.ok r.1 r.2 none) ++ (.ok p raddr wr :: rest))).written[oks.length]? =
      some (p.drop (addrLen (cd.SplitAddr p))) ∧
    (timedCopy cd .relayClient
        (oks.map (fun r => Read.ok r.1 r.2 none) ++ (.ok p raddr wr :: rest))).written.take
          oks.length =
      oks.map (fun r => r.1.drop (addrLen (cd.SplitAddr r.1))) ∧
    (timedCopy cd .relayClient
        ((oks ++ [(p, raddr)]).map (fun r => Read.ok r.1 r.2 none) ++ [.err e])).written =
      (oks ++ [(p, raddr)]).map (fun r => r.1.drop (addrLen (cd.SplitAddr r.1))) ∧
    (timedCopy cd .relayClient [.ok p raddr wr]).written = [p.drop (addrLen (cd.SplitAddr p))] ∧
    (p.drop (addrLen (cd.SplitAddr p))).length = p.length - addrLen (cd.SplitAddr p) ∧
    (∀ i, (p.drop (addrLen (cd.SplitAddr p)))[i]? = p[addrLen (cd.SplitAddr p) + i]?) ∧
    (cd.SplitAddr p = none →
      (timedCopy cd .relayClient
        (oks.map (fun r => Read.ok r.1 r.2 none) ++ (.ok p raddr wr :: rest))).written[oks.length]? =
        some p) := by
  obtain ⟨htp, hfp⟩ := relayClient_fits cd p raddr hp hL
  have hfit : ∀ r ∈ oks, fits cd .relayClient udpBufSize (r.1.take udpBufSize) r.2 = true :=
    fun r hr => (relayClient_fits cd r.1 r.2 (hpre r hr).1 (hpre r hr).2).2
  have hmap : oks.map (fun r => roleDatagram cd .relayClient (r.1.take udpBufSize) r.2) =
      oks.map (fun r => r.1.drop (addrLen (cd.SplitAddr r.1))) := by
    apply List.map_congr_left
    intro r hr
    rw [(relayClient_fits cd r.1 r.2 (hpre r hr).1 (hpre r hr).2).1]
    rfl
  have hhead : ∀ buf : List Byte, buf.length = udpBufSize →
      ∃ more, (timedCopyLoop cd .relayClient buf (.ok p raddr wr :: rest)).written =
        p.drop (addrLen (cd.SplitAddr p)) :: more := by
    intro buf hbuf
    obtain ⟨more, hm⟩ := timedCopyLoop_head cd .relayClient buf p raddr wr rest
      (by rw [hbuf]; exact hfp)
    rw [hbuf, htp] at hm
    exact ⟨more, hm⟩
  obtain ⟨buf1, hlen1, hrun⟩ := timedCopyLoop_leading cd .relayClient udpBufSize oks
    (.ok p raddr wr :: rest) (List.replicate udpBufSize 0) fresh_buf_length hfit
  obtain ⟨more, hmore⟩ := hhead buf1 hlen1
  have hwritten : (timedCopy cd .relayClient
      (oks.map (fun r => Read.ok r.1 r.2 none) ++ (.ok p raddr wr :: rest))).written =
      oks.map (fun r => r.1.drop (addrLen (cd.SplitAddr r.1))) ++
        (p.drop (addrLen (cd.SplitAddr p)) :: more) := by
    simp only [timedCopy, hrun, hmore, hmap]
  have hidx : (timedCopy cd .relayClient
      (oks.map (fun r => Read.ok r.1 r.2 none) ++ (.ok p raddr wr :: rest))).written[oks.length]? =
      some (p.drop (addrLen (cd.SplitAddr p))) := by
    rw [hwritten, List.getElem?_append_right (by simp)]
    simp
  have hall : ∀ r ∈ oks ++ [(p, raddr)],
      fits cd .relayClient udpBufSize (r.1.take udpBufSize) r.2 = true := by
    intro r hr
    rcases List.mem_append.mp hr with h1 | h1
    · exact hfit r h1
    · rw [List.mem_singleton.mp h1]
      exact hfp
  have hmapall : (oks ++ [(p, raddr)]).map
        (fun r => roleDatagram cd .relayClient (r.1.take udpBufSize) r.2) =
      (oks ++ [(p, raddr)]).map (fun r => r.1.drop (addrLen (cd.SplitAddr r.1))) := by
    rw [List.map_append, List.map_append, hmap]
    simp only [List.map_cons, List.map_nil, htp]
    rfl
  have hsingle := timedCopy_single_written cd .relayClient p raddr wr hp
    (by rw [htp] at hfp; exact hfp)
  refine ⟨?_, hidx, ?_, ?_, hsingle, List.length_drop _ _,
    fun i => List.getElem?_drop _ _ _, ?_⟩
  · intro buf hbuf
    obtain ⟨m1, hm1⟩ := hhead buf hbuf
    rw [hm1]
    rfl
  · rw [hwritten, List.take_append_of_le_length (by simp)]
    rw [List.take_of_length_le (by simp)]
  · rw [timedCopy_reads_then_error cd .relayClient (oks ++ [(p, raddr)]) e hall]
    exact hmapall
  · intro hnone
    rw [hidx]
    simp [hnone, addrLen]

theorem timedCopy_relayClient_strips_witness :
    (timedCopy sampleCodec .relayClient
      [.ok (v4Atom ++ [0x52, 0x45]) "10.9.8.7:8388" none,
       .ok (v6Atom ++ [0x50, 0x4c, 0x59]) "10.9.8.7:8388" none,
       .err "i/o timeout"]).written = [[0x52, 0x45], [0x50, 0x4c, 0x59]] ∧
    (timedCopy sampleCodec .relayClient
      [.ok (v4Atom ++ [0x52, 0x45]) "10.9.8.7:8388" none,
       .ok [9, 9] "10.9.8.7:8388" (some "write: network unreachable"),
       .ok v4Atom "10.9.8.7:8388" none]).written[1]? = some [9, 9] :=
  ⟨(timedCopy_relayClient_strips sampleCodec [(v4Atom ++ [0x52, 0x45], "10.9.8.7:8388")]
      (v6Atom ++ [0x50, 0x4c, 0x59]) "10.9.8.7:8388" none [] "i/o timeout"
      (by decide) (by decide) (by decide)).2.2.2.1,
   (timedCopy_relayClient_strips sampleCodec [(v4Atom ++ [0x52, 0x45], "10.9.8.7:8388")]
      [9, 9] "10.9.8.7:8388" (some "write: network unreachable")
      [.ok v4Atom "10.9.8.7:8388" none] "i/o timeout"
      (by decide) (by decide) (by decide)).2.2.2.2.2.2.2 (by decide)⟩

/-- C1 at a reply the buffer has no room to frame: the reply of 65527 bytes
from `[2001:db8::1]:53` fits the relay buffer, its sender atom has 19 bytes,
and the role switch panics instead of writing the atom followed by the reply. -/
theorem timedCopy_remoteServer_bigReply :
    bigReply.length ≤ udpBufSize ∧
    addrBytes (sampleCodec.ParseAddr "[2001:db8::1]:53") = v6Atom ∧
    timedCopy sampleCodec .remoteServer [.ok bigReply "[2001:db8::1]:53" none] =
      { written := [], reads := 1, exit := .panicked } := by
  refine ⟨by rw [bigReply_length]; decide, by decide, ?_⟩
  exact timedCopyLoop_panics _ _ _ _ _ _ _ bigReply_frame_none

/-- C9 at a run whose first read is a reply the buffer has no room to frame:
one successful read followed by a read error gives no write at all and the
read error is not returned, the task panics at the first read. -/
theorem timedCopy_bigReply_then_error :
    timedCopy sampleCodec .remoteServer
        [.ok bigReply "[2001:db8::1]:53" none, .err "i/o timeout"] =
      { written := [], reads := 1, exit := .panicked } :=
  timedCopyLoop_panics _ _ _ _ _ _ _ bigReply_frame_none

/-! ## The listener loop -/

theorem decode_some (cd : Codec) (cap : Nat) (inb : Inbound) (raddr : String)
    (payload : List Byte) (t : UDPAddr) (h : decode cd cap inb = some (raddr, payload, t)) :
    ∃ data a, inb.read = some (data, raddr) ∧ cd.SplitAddr (data.take cap) = some a ∧
      a.length ≤ (data.take cap).length ∧ cd.resolve (cd.addrString a) = some t ∧
      payload = (data.take cap).drop a.length := by
  unfold decode at h
  split at h
  · simp at h
  · rename_i data ra hread
    split at h
    · simp at h
    · rename_i a hsplit
      split at h
      · rename_i hle
        split at h
        · simp at h
        · rename_i t1 hres
          simp only [Option.some.injEq, Prod.mk.injEq] at h
          obtain ⟨h1, h2, h3⟩ := h
          subst h1 h3
          exact ⟨data, a, hread, hsplit, hle, hres, h2.symm⟩
      · simp at h

theorem loopIter_slices (buf data : List Byte) (L : Nat)
    (hle : L ≤ (data.take buf.length).length) :
    slice (readInto buf data) 0 (readCount buf data) = some (data.take buf.length) ∧
    slice (readInto buf data) L (readCount buf data) = some ((data.take buf.length).drop L) := by
  have hn : readCount buf data ≤ (readInto buf data).length := by
    rw [readInto_length]; exact readCount_le _ _
  have hL : L ≤ readCount buf data := by
    simp only [List.length_take, readCount] at hle ⊢; omega
  rw [slice_eq _ _ _ (Nat.zero_le _) hn, slice_eq _ _ _ hL hn, readInto_take]
  simp

/-- The iteration for a datagram of an endpoint that has an entry: the payload
goes to the socket of the entry. -/
theorem loopIter_known (cd : Codec) (c : Sock) (st : Relay) (inb : Inbound) (raddr : String)
    (payload : List Byte) (t : UDPAddr) (pc : Sock)
    (hrun : st.loop = .running) (hopen : st.cCloses = [])
    (hdec : decode cd st.buf.length inb = some (raddr, payload, t))
    (hget : (st.nm.Get raddr).1 = some pc) :
    ∃ buf1, buf1.length = st.buf.length ∧
      loopIter cd c st inb = { st with buf := buf1, sent := st.sent ++ [(pc, payload, t)] } := by
  obtain ⟨data, a, hread, hsplit, hle, hres, hpay⟩ := decode_some cd _ inb raddr payload t hdec
  obtain ⟨h1, h2⟩ := loopIter_slices st.buf data a.length hle
  refine ⟨readInto st.buf data, readInto_length _ _, ?_⟩
  simp only [loopIter, hrun, hopen, hread, h1, h2, hsplit, hres, hget, hpay, ne_eq,
    not_true_eq_false, if_false, if_true]

/-- The iteration for a datagram of an endpoint without an entry, when
`ListenPacket` succeeds: one socket, one entry, one relay task, and the payload
goes to the new socket. -/
theorem loopIter_new (cd : Codec) (c : Sock) (st : Relay) (inb : Inbound) (raddr : String)
    (payload : List Byte) (t : UDPAddr) (pc : Sock)
    (hrun : st.loop = .running) (hopen : st.cCloses = [])
    (hdec : decode cd st.buf.length inb = some (raddr, payload, t))
    (hget : (st.nm.Get raddr).1 = none) (hlisten : inb.listen = some pc) :
    ∃ buf1, buf1.length = st.buf.length ∧
      loopIter cd c st inb =
        { st with
          buf := buf1
          nm := st.nm.Set raddr (some pc)
          tasks := st.tasks ++
            [{ peer := raddr, dst := some c, src := some pc, role := .remoteServer, live := true }]
          listens := st.listens ++ [pc]
          sent := st.sent ++ [(pc, payload, t)] } := by
  obtain ⟨data, a, hread, hsplit, hle, hres, hpay⟩ := decode_some cd _ inb raddr payload t hdec
  obtain ⟨h1, h2⟩ := loopIter_slices st.buf data a.length hle
  refine ⟨readInto st.buf data, readInto_length _ _, ?_⟩
  simp only [loopIter, hrun, hopen, hread, h1, h2, hsplit, hres, hget, hlisten, hpay, ne_eq,
    not_true_eq_false, if_false, if_true, natmap.Add]

theorem init_buf_length (timeout : Nat) : (Relay.init timeout).buf.length = udpBufSize :=
  fresh_buf_length

/-- For a datagram that decodes to payload and target, with an entry for the
sender or a successful `ListenPacket`, the bytes after the atom are written to
the upstream socket of the sender, addressed to the target; a new entry gets a
`remoteServer` task that writes to the sender on the listening socket. -/
theorem loopIter_forwards (cd : Codec) (c : Sock) (st : Relay) (inb : Inbound) (raddr : String)
    (payload : List Byte) (t : UDPAddr) (pc : Sock)
    (hrun : st.loop = .running) (hopen : st.cCloses = [])
    (hdec : decode cd st.buf.length inb = some (raddr, payload, t))
    (hsock : (st.nm.Get raddr).1 = some pc ∨ ((st.nm.Get raddr).1 = none ∧ inb.listen = some pc)) :
    (loopIter cd c st inb).sent = st.sent ++ [(pc, payload, t)] ∧
    ((loopIter cd c st inb).nm.Get raddr).1 = some pc ∧
    ((st.nm.Get raddr).1 = none →
      (loopIter cd c st inb).tasks = st.tasks ++
        [{ peer := raddr, dst := some c, src := some pc, role := .remoteServer, live := true }]) := by
  rcases hsock with hget | ⟨hget, hlisten⟩
  · obtain ⟨buf1, _, h⟩ := loopIter_known cd c st inb raddr payload t pc hrun hopen hdec hget
    rw [h]
    refine ⟨rfl, hget, ?_⟩
    intro hnone
    rw [hnone] at hget
    simp at hget
  · obtain ⟨buf1, _, h⟩ :=
      loopIter_new cd c st inb raddr payload t pc hrun hopen hdec hget hlisten
    rw [h]
    refine ⟨rfl, ?_, fun _ => rfl⟩
    simp [natmap.Get_fst, natmap.Set_m]

/-- C8 at a reply the buffer has no room to frame: the query of client
`10.0.0.1:4000` for `[2001:db8::1]:53` is forwarded as the claim says, payload
only, through a new socket with a `remoteServer` task; a reply of 65527 bytes
from that target is not returned as atom followed by reply, the task panics. -/
theorem udpRemote_bigReply_not_returned :
    (loopIter sampleCodec 0 (Relay.init 60) (dnsQuery6 [0x51] (some 5))).sent =
      [(5, [0x51], "[2001:db8::1]:53")] ∧
    (loopIter sampleCodec 0 (Relay.init 60) (dnsQuery6 [0x51] (some 5))).tasks =
      [{ peer := "10.0.0.1:4000", dst := some 0, src := some 5, role := .remoteServer,
         live := true }] ∧
    (timedCopy sampleCodec .remoteServer [.ok bigReply "[2001:db8::1]:53" none]).written = [] ∧
    (timedCopy sampleCodec .remoteServer [.ok bigReply "[2001:db8::1]:53" none]).exit =
      .panicked := by
  have h := loopIter_forwards sampleCodec 0 (Relay.init 60) (dnsQuery6 [0x51] (some 5))
    "10.0.0.1:4000" [0x51] "[2001:db8::1]:53" 5 rfl rfl
    (by rw [init_buf_length]; decide) (Or.inr ⟨rfl, rfl⟩)
  have hp : timedCopy sampleCodec .remoteServer [.ok bigReply "[2001:db8::1]:53" none] =
      { written := [], reads := 1, exit := .panicked } :=
    timedCopyLoop_panics _ _ _ _ _ _ _ bigReply_frame_none
  refine ⟨h.1, h.2.2 rfl, ?_, ?_⟩
  · rw [hp]
  · rw [hp]

/-! ## Shutdown: who closes the listening socket -/

/-- An iteration of the read loop calls `c.Close()` nowhere and leaves the
shutdown goroutine alone; it leaves the loop only towards `stop <- 1`, and only
once `closed` is set. -/
theorem loopIter_control (cd : Codec) (c : Sock) (st : Relay) (inb : Inbound) :
    (loopIter cd c st inb).cCloses = st.cCloses ∧
    (loopIter cd c st inb).stopper = st.stopper ∧
    (loopIter cd c st inb).closed = st.closed ∧
    ((loopIter cd c st inb).loop = .exited ↔ st.loop = .exited) ∧
    ((loopIter cd c st inb).loop = .acking → st.loop = .acking ∨ st.closed = true) := by
  unfold loopIter
  by_cases hrun : st.loop = .running
  · simp only [hrun, ne_eq, not_true_eq_false, if_false]
    repeat' split
    all_goals simp_all [natmap.Add]
  · simp only [ne_eq, hrun, not_false_eq_true, if_true, true_and]
    exact fun h => Or.inl h

theorem taskExit_control (st : Relay) (i : Nat) :
    (taskExit st i).cCloses = st.cCloses ∧ (taskExit st i).stopper = st.stopper ∧
    (taskExit st i).closed = st.closed ∧ (taskExit st i).loop = st.loop := by
  unfold taskExit
  repeat' split
  all_goals simp

theorem CloseInv_init (timeout : Nat) : CloseInv (Relay.init timeout) := by
  constructor <;> simp [Relay.init]

theorem CloseInv_step (cd : Codec) (c : Sock) (st : Relay) (ev : Event) (h : CloseInv st) :
    CloseInv (step cd c st ev) := by
  obtain ⟨h1, h2, h3, h4⟩ := h
  cases ev with
  | stopRequest =>
    by_cases hw : st.stopper = .waiting
    · have hc : st.closed = false := by
        cases hcl : st.closed with
        | false => rfl
        | true => simp [hcl, hw] at h3
      constructor <;> simp_all [step]
    · constructor <;> simp_all [step]
  | shutdownStep =>
    cases hs : st.stopper with
    | waiting => constructor <;> simp_all [step]
    | signalled => constructor <;> simp_all [step]
    | flagged =>
      constructor
      · simp_all [step, List.count_append]
      · simp_all [step, List.count_append]
      · simp_all [step]
      · simp_all [step]
    | done => constructor <;> simp_all [step]
  | ackReceived =>
    by_cases ha : st.loop = .acking
    · constructor
      · simp_all [step, List.count_append]
      · simp_all [step, List.count_append]
      · simp_all [step]
      · simp_all [step]
    · constructor <;> simp_all [step]
  | datagram inb =>
    obtain ⟨k1, k2, k3, k4, k5⟩ := loopIter_control cd c st inb
    constructor
    · simp only [step, k1, k2]; exact h1
    · simp only [step, k1, k4]; exact h2
    · simp only [step, k2, k3]; exact h3
    · simp only [step, k3, k4]
      rintro (ha | he)
      · rcases k5 ha with hb | hb
        · exact h4 (Or.inl hb)
        · exact hb
      · exact h4 (Or.inr he)
  | taskExit i =>
    obtain ⟨k1, k2, k3, k4⟩ := taskExit_control st i
    constructor
    · simp only [step, k1, k2]; exact h1
    · simp only [step, k1, k4]; exact h2
    · simp only [step, k2, k3]; exact h3
    · simp only [step, k3, k4]; exact h4

theorem CloseInv_run (cd : Codec) (c : Sock) (evs : List Event) :
    ∀ st : Relay, CloseInv st → CloseInv (run cd c st evs) := by
  induction evs with
  | nil => intro st h; exact h
  | cons ev evs ih =>
    intro st h
    exact ih _ (CloseInv_step cd c st ev h)

theorem closers_length (l : List Closer) :
    l.length = l.count .shutdownPath + l.count .readLoop := by
  induction l with
  | nil => rfl
  | cons a l ih =>
    cases a <;> simp [List.count_cons, ih] <;> omega

/-! ## Relay tasks and the sockets they close -/

theorem tasks_append_some (l : List Task) (new t : Task) (i : Nat)
    (h : (l ++ [new])[i]? = some t) : l[i]? = some t ∨ (i = l.length ∧ t = new) := by
  rw [List.getElem?_append] at h
  split at h
  · exact Or.inl h
  · rename_i hlt
    right
    have hi : i - l.length = 0 := by
      by_contra hne
      rw [List.getElem?_eq_none (by simp; omega)] at h
      simp at h
    rw [hi] at h
    simp only [List.getElem?_cons_zero, Option.some.injEq] at h
    exact ⟨by omega, h.symm⟩

theorem tasks_append_old (l : List Task) (new t : Task) (i : Nat) (h : l[i]? = some t) :
    (l ++ [new])[i]? = some t := by
  have hi : i < l.length := by
    by_contra hge
    rw [List.getElem?_eq_none (by omega)] at h
    simp at h
  rw [List.getElem?_append_left hi]
  exact h

theorem tasks_set_some (l : List Task) (i j : Nat) (u t : Task)
    (h : (l.set i u)[j]? = some t) : (j = i ∧ t = u) ∨ (j ≠ i ∧ l[j]? = some t) := by
  rw [List.getElem?_set] at h
  by_cases hij : i = j
  · left
    rw [if_pos hij] at h
    split at h
    · simp only [Option.some.injEq] at h
      exact ⟨hij.symm, h.symm⟩
    · simp at h
  · right
    rw [if_neg hij] at h
    exact ⟨fun hji => hij hji.symm, h⟩

theorem tasks_set_self (l : List Task) (i : Nat) (u t : Task) (h : l[i]? = some t) :
    (l.set i u)[i]? = some u := by
  have hi : i < l.length := by
    by_contra hge
    rw [List.getElem?_eq_none (by omega)] at h
    simp at h
  rw [List.getElem?_set]
  simp [hi]

theorem NatInv_init (timeout : Nat) : NatInv (Relay.init timeout) := by
  constructor <;> simp [Relay.init]

theorem NatInv_taskExit (st : Relay) (i : Nat) (h : NatInv st) : NatInv (taskExit st i) := by
  unfold taskExit
  cases hti : st.tasks[i]? with
  | none => exact h
  | some t =>
    by_cases hlive : t.live = true
    · obtain ⟨s, hsrc, hm⟩ := h.entry i t hti hlive
      have hdel1 : (st.nm.Del t.peer).1 = some s := by simp [natmap.Del, hm]
      simp only [hlive, if_true, hdel1]
      constructor
      · intro j u hj hul
        rcases tasks_set_some _ _ _ _ _ hj with ⟨_, hu⟩ | ⟨hne, hju⟩
        · rw [hu] at hul
          simp at hul
        · obtain ⟨s1, hs1, hm1⟩ := h.entry j u hju hul
          have hp : u.peer ≠ t.peer := fun heq => hne (h.peers j i u t hju hti hul hlive heq)
          refine ⟨s1, hs1, ?_⟩
          show (st.nm.Del t.peer).2.m u.peer = some (some s1)
          rw [natmap.Del_m, if_neg hp]
          exact hm1
      · intro j k uj uk hj hk hlj hlk hpeer
        rcases tasks_set_some _ _ _ _ _ hj with ⟨_, hu⟩ | ⟨_, hju⟩
        · rw [hu] at hlj
          simp at hlj
        · rcases tasks_set_some _ _ _ _ _ hk with ⟨_, hu⟩ | ⟨_, hku⟩
          · rw [hu] at hlk
            simp at hlk
          · exact h.peers j k uj uk hju hku hlj hlk hpeer
      · intro j k uj uk hj hk hs
        rcases tasks_set_some _ _ _ _ _ hj with ⟨hji, hu⟩ | ⟨_, hju⟩
        · rcases tasks_set_some _ _ _ _ _ hk with ⟨hki, _⟩ | ⟨_, hku⟩
          · rw [hji, hki]
          · rw [hu] at hs
            rw [hji]
            exact h.socks i k t uk hti hku hs
        · rcases tasks_set_some _ _ _ _ _ hk with ⟨hki, hu⟩ | ⟨_, hku⟩
          · rw [hu] at hs
            rw [hki]
            exact h.socks j i uj t hju hti hs
          · exact h.socks j k uj uk hju hku hs
      · intro j s1 hmem
        simp only [List.mem_append, List.mem_singleton, Prod.mk.injEq] at hmem
        rcases hmem with hold | ⟨hji, hs1⟩
        · obtain ⟨u, hu, hus, hul⟩ := h.own j s1 hold
          have hne : i ≠ j := by
            intro hij
            rw [← hij, hti] at hu
            simp only [Option.some.injEq] at hu
            rw [← hu, hlive] at hul
            simp at hul
          refine ⟨u, ?_, hus, hul⟩
          show (st.tasks.set i _)[j]? = some u
          rw [List.getElem?_set_ne hne]
          exact hu
        · refine ⟨{ t with live := false }, ?_, ?_, rfl⟩
          · rw [hji]
            exact tasks_set_self _ _ _ _ hti
          · rw [hs1]
            exact hsrc
      · show ((st.closes ++ [(i, s)]).map Prod.fst).Nodup
        rw [List.map_append, List.nodup_append]
        refine ⟨h.onceTask, by simp, ?_⟩
        simp only [List.map_cons, List.map_nil, List.disjoint_singleton, List.mem_map,
          Prod.exists, exists_and_right, exists_eq_right, not_exists]
        intro s1 hmem
        obtain ⟨u, hu, _, hul⟩ := h.own i s1 hmem
        rw [hti] at hu
        simp only [Option.some.injEq] at hu
        rw [← hu, hlive] at hul
        simp at hul
      · show ((st.closes ++ [(i, s)]).map Prod.snd).Nodup
        rw [List.map_append, List.nodup_append]
        refine ⟨h.onceSock, by simp, ?_⟩
        simp only [List.map_cons, List.map_nil, List.disjoint_singleton, List.mem_map,
          Prod.exists, exists_eq_right, not_exists]
        intro j hmem
        obtain ⟨u, hu, hus, hul⟩ := h.own j s hmem
        have hji : j = i := h.socks j i u t hu hti (hus.trans hsrc.symm)
        rw [hji, hti] at hu
        simp only [Option.some.injEq] at hu
        rw [← hu, hlive] at hul
        simp at hul
    · simp only [hlive]
      exact h

theorem NatInv_Add (st : Relay) (peer : String) (dst : PacketConn) (s : Sock) (role : mode)
    (h : NatInv st) (hget : (st.nm.Get peer).1 = none)
    (hfresh : ∀ t ∈ st.tasks, t.src ≠ some s) :
    NatInv (natmap.Add st peer dst (some s) role) := by
  have hother : ∀ (j : Nat) (u : Task), st.tasks[j]? = some u → u.live = true →
      u.peer ≠ peer := by
    intro j u hju hul heq
    obtain ⟨s1, _, hm1⟩ := h.entry j u hju hul
    rw [heq] at hm1
    simp [natmap.Get_fst, hm1] at hget
  unfold natmap.Add
  constructor
  · intro j u hj hul
    rcases tasks_append_some _ _ _ _ hj with hold | ⟨_, hu⟩
    · obtain ⟨s1, hs1, hm1⟩ := h.entry j u hold hul
      refine ⟨s1, hs1, ?_⟩
      show (st.nm.Set peer (some s)).m u.peer = some (some s1)
      rw [natmap.Set_m, if_neg (hother j u hold hul)]
      exact hm1
    · refine ⟨s, by rw [hu], ?_⟩
      show (st.nm.Set peer (some s)).m u.peer = some (some s)
      rw [natmap.Set_m, hu]
      simp
  · intro j k uj uk hj hk hlj hlk hpeer
    rcases tasks_append_some _ _ _ _ hj with hjo | ⟨hjn, hju⟩
    · rcases tasks_append_some _ _ _ _ hk with hko | ⟨_, hku⟩
      · exact h.peers j k uj uk hjo hko hlj hlk hpeer
      · rw [hku] at hpeer
        exact absurd hpeer (hother j uj hjo hlj)
    · rcases tasks_append_some _ _ _ _ hk with hko | ⟨hkn, _⟩
      · rw [hju] at hpeer
        exact absurd hpeer.symm (hother k uk hko hlk)
      · rw [hjn, hkn]
  · intro j k uj uk hj hk hs
    rcases tasks_append_some _ _ _ _ hj with hjo | ⟨hjn, hju⟩
    · rcases tasks_append_some _ _ _ _ hk with hko | ⟨_, hku⟩
      · exact h.socks j k uj uk hjo hko hs
      · rw [hku] at hs
        exact absurd hs (hfresh uj (List.getElem?_mem hjo))
    · rcases tasks_append_some _ _ _ _ hk with hko | ⟨hkn, _⟩
      · rw [hju] at hs
        exact absurd hs.symm (hfresh uk (List.getElem?_mem hko))
      · rw [hjn, hkn]
  · intro j s1 hmem
    obtain ⟨u, hu, hus, hul⟩ := h.own j s1 hmem
    exact ⟨u, tasks_append_old _ _ _ _ hu, hus, hul⟩
  · exact h.onceTask
  · exact h.onceSock

theorem NatInv_natRun (evs : List NatEvent) :
    ∀ st : Relay, NatInv st → guarded st evs = true → NatInv (natRun st evs) := by
  induction evs with
  | nil => intro st h _; exact h
  | cons ev evs ih =>
    intro st h hg
    cases ev with
    | add peer dst src role =>
      simp only [guarded, Bool.and_eq_true, beq_iff_eq, List.all_eq_true, bne_iff_ne, ne_eq]
        at hg
      obtain ⟨⟨⟨hget, hsome⟩, hfresh⟩, hrest⟩ := hg
      obtain ⟨s, hs⟩ := Option.isSome_iff_exists.mp hsome
      subst hs
      exact ih _ (NatInv_Add st peer dst s role h hget hfresh) hrest
    | exit i =>
      simp only [guarded] at hg
      exact ih _ (NatInv_taskExit st i h) hg

/-- The exit of a live task in a state of the invariant removes the entry of
its endpoint and closes the socket the task was started with. -/
theorem taskExit_closes_own (st : Relay) (i : Nat) (t : Task) (h : NatInv st)
    (hti : st.tasks[i]? = some t) (hlive : t.live = true) :
    ∃ s, t.src = some s ∧ (st.nm.Del t.peer).1 = some s ∧
      (taskExit st i).closes = st.closes ++ [(i, s)] ∧
      ((taskExit st i).nm.Get t.peer).1 = none := by
  obtain ⟨s, hsrc, hm⟩ := h.entry i t hti hlive
  have hdel1 : (st.nm.Del t.peer).1 = some s := by simp [natmap.Del, hm]
  refine ⟨s, hsrc, hdel1, ?_, ?_⟩
  · simp only [taskExit, hti, hlive, if_true, hdel1]
  · simp only [taskExit, hti, hlive, if_true, hdel1]
    simp [natmap.Get_fst, natmap.Del_m]

/-- C2, with every `Add` made for an endpoint that has no entry at that moment
and with an open socket given to no earlier task: after any run of `Add` calls
and task exits on a new table, every closed socket was closed by the exit of
the task started with it, no socket and no task occurs twice among the closes,
and the exit of any task still live removes and closes that task's own socket. -/
theorem natmap_Add_exit_closes_own (timeout : Nat) (evs : List NatEvent)
    (hg : guarded (Relay.init timeout) evs = true) :
    (∀ (i : Nat) (s : Sock), (i, s) ∈ (natRun (Relay.init timeout) evs).closes →
      ∃ t, (natRun (Relay.init timeout) evs).tasks[i]? = some t ∧ t.src = some s ∧
        t.live = false) ∧
    ((natRun (Relay.init timeout) evs).closes.map Prod.snd).Nodup ∧
    ((natRun (Relay.init timeout) evs).closes.map Prod.fst).Nodup ∧
    (∀ (i : Nat) (t : Task), (natRun (Relay.init timeout) evs).tasks[i]? = some t →
      t.live = true →
      ∃ s, t.src = some s ∧
        (taskExit (natRun (Relay.init timeout) evs) i).closes =
          (natRun (Relay.init timeout) evs).closes ++ [(i, s)]) := by
  have h := NatInv_natRun evs (Relay.init timeout) (NatInv_init timeout) hg
  refine ⟨h.own, h.onceSock, h.onceTask, ?_⟩
  intro i t hti hlive
  obtain ⟨s, hsrc, _, hc, _⟩ := taskExit_closes_own _ i t h hti hlive
  exact ⟨s, hsrc, hc⟩

theorem natmap_Add_exit_closes_own_witness :
    ((natRun (Relay.init 60)
      [.add "10.0.0.1:4000" (some 0) (some 1) .remoteServer,
       .add "10.0.0.2:4000" (some 0) (some 2) .remoteServer,
       .exit 0,
       .add "10.0.0.1:4000" (some 0) (some 3) .remoteServer,
       .exit 1, .exit 0, .exit 2]).closes.map Prod.snd).Nodup ∧
    (natRun (Relay.init 60)
      [.add "10.0.0.1:4000" (some 0) (some 1) .remoteServer,
       .add "10.0.0.2:4000" (some 0) (some 2) .remoteServer,
       .exit 0,
       .add "10.0.0.1:4000" (some 0) (some 3) .remoteServer,
       .exit 1, .exit 0, .exit 2]).closes = [(0, 1), (1, 2), (2, 3)] :=
  ⟨(natmap_Add_exit_closes_own 60 _ (by decide)).2.1, by decide⟩

/-- C2 as stated fails when `Add` is called twice for one endpoint: the exit of
the first task removes and closes the socket of the second task, the second
exit finds nothing, and the socket of the first task is never closed. -/
theorem natmap_Add_twice_closes_other :
    (natRun (Relay.init 60)
      [.add "10.0.0.1:4000" (some 0) (some 1) .remoteServer,
       .add "10.0.0.1:4000" (some 0) (some 2) .remoteServer,
       .exit 0, .exit 1]).closes = [(0, 2)] ∧
    (natRun (Relay.init 60)
      [.add "10.0.0.1:4000" (some 0) (some 1) .remoteServer,
       .add "10.0.0.1:4000" (some 0) (some 2) .remoteServer,
       .exit 0, .exit 1]).tasks.map Task.src = [some 1, some 2] := by
  decide

/-- An iteration of the read loop leaves table, tasks and closed sockets alone,
or makes the one `Add` of line 99, for an endpoint on which `Get` returned nil. -/
theorem loopIter_table (cd : Codec) (c : Sock) (st : Relay) (inb : Inbound) :
    ((loopIter cd c st inb).nm = st.nm ∧ (loopIter cd c st inb).tasks = st.tasks ∧
      (loopIter cd c st inb).closes = st.closes) ∨
    (∃ raddr pc, inb.listen = some pc ∧ (st.nm.Get raddr).1 = none ∧
      (loopIter cd c st inb).nm = (natmap.Add st raddr (some c) (some pc) .remoteServer).nm ∧
      (loopIter cd c st inb).tasks =
        (natmap.Add st raddr (some c) (some pc) .remoteServer).tasks ∧
      (loopIter cd c st inb).closes =
        (natmap.Add st raddr (some c) (some pc) .remoteServer).closes) := by
  unfold loopIter
  by_cases hrun : st.loop = .running
  · simp only [hrun, ne_eq, not_true_eq_false, if_false]
    split
    · left; split <;> simp
    · rename_i data raddr _
      split
      · left; simp
      · split
        · left; simp
        · split
          · left; simp
          · split
            · left; simp
            · split
              · left; simp
              · rename_i hget
                split
                · left; simp
                · rename_i pc hlisten
                  right
                  exact ⟨raddr, pc, hlisten, hget, rfl, rfl, rfl⟩
  · left
    simp [hrun]

theorem NatInv_of_eq (st st1 : Relay) (h : NatInv st) (hnm : st1.nm = st.nm)
    (htasks : st1.tasks = st.tasks) (hcloses : st1.closes = st.closes) : NatInv st1 := by
  obtain ⟨h1, h2, h3, h4, h5, h6⟩ := h
  constructor
  · rw [hnm, htasks]; exact h1
  · rw [htasks]; exact h2
  · rw [htasks]; exact h3
  · rw [htasks, hcloses]; exact h4
  · rw [hcloses]; exact h5
  · rw [hcloses]; exact h6

theorem NatInv_step (cd : Codec) (c : Sock) (st : Relay) (ev : Event) (h : NatInv st)
    (hfresh : ∀ inb pc, ev = .datagram inb → inb.listen = some pc →
      ∀ t ∈ st.tasks, t.src ≠ some pc) :
    NatInv (step cd c st ev) := by
  cases ev with
  | stopRequest =>
    simp only [step]
    split
    · exact NatInv_of_eq st _ h rfl rfl rfl
    · exact h
  | shutdownStep =>
    simp only [step]
    split
    · exact NatInv_of_eq st _ h rfl rfl rfl
    · exact NatInv_of_eq st _ h rfl rfl rfl
    · exact h
  | ackReceived =>
    simp only [step]
    split
    · exact NatInv_of_eq st _ h rfl rfl rfl
    · exact h
  | datagram inb =>
    simp only [step]
    rcases loopIter_table cd c st inb with ⟨k1, k2, k3⟩ | ⟨raddr, pc, hl, hget, k1, k2, k3⟩
    · exact NatInv_of_eq st _ h k1 k2 k3
    · exact NatInv_of_eq _ _
        (NatInv_Add st raddr (some c) pc .remoteServer h hget (hfresh inb pc rfl hl)) k1 k2 k3
  | taskExit i => exact NatInv_taskExit st i h

theorem NatInv_run (cd : Codec) (c : Sock) (evs : List Event) :
    ∀ st : Relay, NatInv st → freshListens cd c st evs = true →
      NatInv (run cd c st evs) := by
  induction evs with
  | nil => intro st h _; exact h
  | cons ev evs ih =>
    intro st h hf
    cases ev with
    | datagram inb =>
      simp only [freshListens, Bool.and_eq_true] at hf
      refine ih _ (NatInv_step cd c st _ h ?_) hf.2
      intro inb1 pc heq hl t ht
      cases heq
      have h1 := hf.1
      rw [hl] at h1
      simp only [List.all_eq_true, bne_iff_ne, ne_eq] at h1
      exact h1 t ht
    | stopRequest =>
      simp only [freshListens] at hf
      exact ih _ (NatInv_step cd c st _ h (fun _ _ heq => by cases heq)) hf
    | shutdownStep =>
      simp only [freshListens] at hf
      exact ih _ (NatInv_step cd c st _ h (fun _ _ heq => by cases heq)) hf
    | ackReceived =>
      simp only [freshListens] at hf
      exact ih _ (NatInv_step cd c st _ h (fun _ _ heq => by cases heq)) hf
    | taskExit i =>
      simp only [freshListens] at hf
      exact ih _ (NatInv_step cd c st _ h (fun _ _ heq => by cases heq)) hf

/-- In `udpRemote` the condition on `Add` is met by the code: whatever the
datagrams, shutdown steps and task exits, as long as `ListenPacket` hands out
new sockets, a socket is closed only by the exit of the task started with it,
and once. -/
theorem udpRemote_tasks_close_own (cd : Codec) (c : Sock) (timeout : Nat) (evs : List Event)
    (hf : freshListens cd c (Relay.init timeout) evs = true) :
    (∀ (i : Nat) (s : Sock), (i, s) ∈ (run cd c (Relay.init timeout) evs).closes →
      ∃ t, (run cd c (Relay.init timeout) evs).tasks[i]? = some t ∧ t.src = some s ∧
        t.live = false) ∧
    ((run cd c (Relay.init timeout) evs).closes.map Prod.snd).Nodup ∧
    ((run cd c (Relay.init timeout) evs).closes.map Prod.fst).Nodup := by
  have h := NatInv_run cd c evs (Relay.init timeout) (NatInv_init timeout) hf
  exact ⟨h.own, h.onceSock, h.onceTask⟩

/-! ## Shutdown runs -/

/-- C4, as the code has it: when a run from the start of `udpRemote` has taken
the read loop past its `break` and the shutdown goroutine past its last
statement, `c.Close()` was invoked twice, once by the shutdown path and once by
the deferred call of the read loop; the loop left only after `closed` was set. -/
theorem udpRemote_shutdown_two_closes (cd : Codec) (c : Sock) (timeout : Nat)
    (evs : List Event)
    (hloop : (run cd c (Relay.init timeout) evs).loop = .exited)
    (hstop : (run cd c (Relay.init timeout) evs).stopper = .done) :
    (run cd c (Relay.init timeout) evs).cCloses.length = 2 ∧
    (run cd c (Relay.init timeout) evs).cCloses.count .shutdownPath = 1 ∧
    (run cd c (Relay.init timeout) evs).cCloses.count .readLoop = 1 ∧
    (run cd c (Relay.init timeout) evs).closed = true := by
  have h := CloseInv_run cd c evs (Relay.init timeout) (CloseInv_init timeout)
  have h1 := h.byShutdown
  have h2 := h.byLoop
  rw [hstop] at h1
  rw [hloop] at h2
  simp only [if_true] at h1 h2
  refine ⟨?_, h1, h2, h.leaving (Or.inr hloop)⟩
  rw [closers_length, h1, h2]

theorem udpRemote_shutdown_two_closes_witness :
    (run sampleCodec 0 (Relay.init 60)
      [.datagram readError, .stopRequest, .shutdownStep, .datagram readError, .ackReceived,
       .shutdownStep, .taskExit 0]).cCloses.length = 2 :=
  (udpRemote_shutdown_two_closes sampleCodec 0 60 _ (by decide) (by decide)).1

/-- C4 as stated fails on the plain shutdown run: stop is requested, the
shutdown goroutine sets `closed` and closes the socket, the read fails, the
loop acknowledges and breaks; `c.Close()` has then been invoked by the shutdown
path and again by the read loop. -/
theorem udpRemote_shutdown_second_close :
    (run sampleCodec 0 (Relay.init 60)
      [.stopRequest, .shutdownStep, .shutdownStep, .datagram (dnsQuery [0x51] (some 5)),
       .ackReceived]).loop = .exited ∧
    (run sampleCodec 0 (Relay.init 60)
      [.stopRequest, .shutdownStep, .shutdownStep, .datagram (dnsQuery [0x51] (some 5)),
       .ackReceived]).cCloses = [.shutdownPath, .readLoop] := by
  decide

end Manager
